import Mathlib

/-!
Verification of the HTTP/2 pseudo-header extension core (`src/ext.rs`):
the `Protocol` value type (a validated UTF-8 string backed by shared
bytes) and the `PseudoHeadersOverride` builder.

Byte buffers are modelled as `List Nat` (each element a byte value),
strings (`str`) as `List Nat` of Unicode scalar values.  The `BytesStr`
type and the UTF-8 validation it relies on live outside `src/` (in
`crate::hpack` and the standard library) and are modelled from the spec.
-/

set_option maxRecDepth 8192

namespace H2

/-- Modelled from the spec: a Unicode scalar value, the code points a
string may contain (excluding the surrogate range). -/
def ValidScalar (c : Nat) : Prop :=
  c < 0xD800 ∨ (0xE000 ≤ c ∧ c < 0x110000)

instance (c : Nat) : Decidable (ValidScalar c) :=
  inferInstanceAs (Decidable (c < 0xD800 ∨ (0xE000 ≤ c ∧ c < 0x110000)))

/-- Modelled from the spec: the UTF-8 encoding of a single Unicode scalar
value, as the standard 1- to 4-byte sequence. -/
def utf8EncodeChar (c : Nat) : List Nat :=
  if c < 0x80 then [c]
  else if c < 0x800 then [0xC0 + c / 64, 0x80 + c % 64]
  else if c < 0x10000 then
    [0xE0 + c / 4096, 0x80 + c / 64 % 64, 0x80 + c % 64]
  else
    [0xF0 + c / 262144, 0x80 + c / 4096 % 64, 0x80 + c / 64 % 64, 0x80 + c % 64]

/-- Modelled from the spec: the UTF-8 encoding of a string (a sequence of
Unicode scalar values). -/
def utf8Encode (cs : List Nat) : List Nat :=
  (cs.map utf8EncodeChar).flatten

/-- Modelled from the spec: a byte buffer is valid UTF-8 when it is the
UTF-8 encoding of some string of Unicode scalar values. -/
def Utf8Valid (b : List Nat) : Prop :=
  ∃ cs, (∀ c ∈ cs, ValidScalar c) ∧ b = utf8Encode cs

/-- Combines the decoding of one UTF-8 sequence of `n` bytes yielding the
scalar `c` with the outcome for the remaining bytes, shifting error offsets
by `n`. -/
def step (n c : Nat) (r : Except Nat (List Nat)) : Except Nat (List Nat) :=
  match r with
  | .ok cs => .ok (c :: cs)
  | .error e => .error (n + e)

/-- Modelled from the spec: the standard library UTF-8 validation and
decoding used by the untrusted-byte-buffer constructor.  On success it
returns the decoded scalar values; on failure it returns the byte offset
of the first invalid sequence (the `valid_up_to` of `Utf8Error`). -/
def utf8Decode (l : List Nat) : Except Nat (List Nat) :=
  match l with
  | [] => .ok []
  | b :: rest =>
    if b < 0x80 then
      step 1 b (utf8Decode rest)
    else if 0xC2 ≤ b ∧ b ≤ 0xDF then
      match rest with
      | [] => .error 0
      | b1 :: rest1 =>
        if 0x80 ≤ b1 ∧ b1 ≤ 0xBF then
          step 2 ((b - 0xC0) * 64 + (b1 - 0x80)) (utf8Decode rest1)
        else .error 0
    else if 0xE0 ≤ b ∧ b ≤ 0xEF then
      match rest with
      | [] => .error 0
      | b1 :: rest1 =>
        if (b = 0xE0 ∧ 0xA0 ≤ b1 ∧ b1 ≤ 0xBF) ∨
           (0xE1 ≤ b ∧ b ≤ 0xEC ∧ 0x80 ≤ b1 ∧ b1 ≤ 0xBF) ∨
           (b = 0xED ∧ 0x80 ≤ b1 ∧ b1 ≤ 0x9F) ∨
           (0xEE ≤ b ∧ 0x80 ≤ b1 ∧ b1 ≤ 0xBF) then
          match rest1 with
          | [] => .error 0
          | b2 :: rest2 =>
            if 0x80 ≤ b2 ∧ b2 ≤ 0xBF then
              step 3 ((b - 0xE0) * 4096 + (b1 - 0x80) * 64 + (b2 - 0x80))
                (utf8Decode rest2)
            else .error 0
        else .error 0
    else if 0xF0 ≤ b ∧ b ≤ 0xF4 then
      match rest with
      | [] => .error 0
      | b1 :: rest1 =>
        if (b = 0xF0 ∧ 0x90 ≤ b1 ∧ b1 ≤ 0xBF) ∨
           (0xF1 ≤ b ∧ b ≤ 0xF3 ∧ 0x80 ≤ b1 ∧ b1 ≤ 0xBF) ∨
           (b = 0xF4 ∧ 0x80 ≤ b1 ∧ b1 ≤ 0x8F) then
          match rest1 with
          | [] => .error 0
          | b2 :: rest2 =>
            if 0x80 ≤ b2 ∧ b2 ≤ 0xBF then
              match rest2 with
              | [] => .error 0
              | b3 :: rest3 =>
                if 0x80 ≤ b3 ∧ b3 ≤ 0xBF then
                  step 4 ((b - 0xF0) * 262144 + (b1 - 0x80) * 4096 +
                    (b2 - 0x80) * 64 + (b3 - 0x80)) (utf8Decode rest3)
                else .error 0
            else .error 0
        else .error 0
    else .error 0
termination_by structural l

/-- Modelled from the spec: `BytesStr` (from `crate::hpack`), the shared
immutable string representation: a byte buffer whose invariant is UTF-8
validity, established by its constructors. -/
structure BytesStr where
  bytes : List Nat
deriving DecidableEq

/-- Modelled from the spec: `BytesStr::from_static`, construction from a
process-wide-constant string; stores its UTF-8 bytes, no failure. -/
def BytesStr.from_static (s : List Nat) : BytesStr :=
  ⟨utf8Encode s⟩

/-- Modelled from the spec: `From for BytesStr` on a borrowed string;
stores a shared copy of its UTF-8 bytes, no failure. -/
def BytesStr.fromStr (s : List Nat) : BytesStr :=
  ⟨utf8Encode s⟩

/-- Modelled from the spec: `BytesStr::try_from`, the fallible conversion
from an untrusted byte buffer; validates UTF-8 and keeps the bytes, or
reports the offset of the first invalid sequence. -/
def BytesStr.try_from (b : List Nat) : Except Nat BytesStr :=
  match utf8Decode b with
  | .ok _ => .ok ⟨b⟩
  | .error e => .error e

/-- Modelled from the spec: `BytesStr::as_str`, the string view of the
payload (total because the invariant guarantees validity; an invalid
payload is unreachable and mapped to the empty string). -/
def BytesStr.as_str (s : BytesStr) : List Nat :=
  match utf8Decode s.bytes with
  | .ok cs => cs
  | .error _ => []

/-- Modelled from the spec: `AsRef for BytesStr`, the raw byte view. -/
def BytesStr.as_ref (s : BytesStr) : List Nat :=
  s.bytes

/-- `Protocol` from `src/ext.rs`: the `:protocol` pseudo-header value,
wrapping a `BytesStr`.  Derived equality compares the payloads. -/
structure Protocol where
  value : BytesStr
deriving DecidableEq

/-- `Protocol::from_static` from `src/ext.rs`. -/
def Protocol.from_static (s : List Nat) : Protocol :=
  ⟨BytesStr.from_static s⟩

/-- `Protocol::as_str` from `src/ext.rs`. -/
def Protocol.as_str (p : Protocol) : List Nat :=
  p.value.as_str

/-- `Protocol::try_from` from `src/ext.rs`: builds on
`BytesStr::try_from` and propagates its error. -/
def Protocol.try_from (b : List Nat) : Except Nat Protocol :=
  match BytesStr.try_from b with
  | .ok v => .ok ⟨v⟩
  | .error e => .error e

/-- `impl From for Protocol` (from a borrowed string) from `src/ext.rs`. -/
def Protocol.fromStr (s : List Nat) : Protocol :=
  ⟨BytesStr.fromStr s⟩

/-- `impl AsRef for Protocol` from `src/ext.rs`: the raw byte view. -/
def Protocol.as_ref (p : Protocol) : List Nat :=
  p.value.as_ref

/-- `http::Method`, an external structured value stored verbatim. -/
structure Method where
  name : List Nat
deriving DecidableEq

/-- `http::uri::Scheme`, an external structured value stored verbatim. -/
structure Scheme where
  name : List Nat
deriving DecidableEq

/-- `http::uri::Authority`, an external structured value; only its string
rendering is relevant here. -/
structure Authority where
  s : List Nat
deriving DecidableEq

/-- `Authority::as_str`. -/
def Authority.as_str (a : Authority) : List Nat :=
  a.s

/-- `http::uri::PathAndQuery`, an external structured value; only its
string rendering is relevant here. -/
structure PathAndQuery where
  s : List Nat
deriving DecidableEq

/-- `PathAndQuery::as_str`. -/
def PathAndQuery.as_str (p : PathAndQuery) : List Nat :=
  p.s

/-- `PseudoHeadersOverride` from `src/ext.rs`: five independent optional
pseudo-header overrides. -/
structure PseudoHeadersOverride where
  method : Option Method
  scheme : Option Scheme
  authority : Option BytesStr
  path : Option BytesStr
  protocol : Option Protocol
deriving DecidableEq

/-- `PseudoHeadersOverride::new` from `src/ext.rs`: the empty set
(`Default` leaves every `Option` field `None`). -/
def PseudoHeadersOverride.new : PseudoHeadersOverride :=
  ⟨none, none, none, none, none⟩

/-- `PseudoHeadersOverride::set_method` from `src/ext.rs`. -/
def PseudoHeadersOverride.set_method (x : PseudoHeadersOverride) (m : Method) :
    PseudoHeadersOverride :=
  { x with method := some m }

/-- `PseudoHeadersOverride::set_scheme` from `src/ext.rs`. -/
def PseudoHeadersOverride.set_scheme (x : PseudoHeadersOverride) (s : Scheme) :
    PseudoHeadersOverride :=
  { x with scheme := some s }

/-- `PseudoHeadersOverride::set_authority` from `src/ext.rs`: stores
`BytesStr::from(authority.as_str())`. -/
def PseudoHeadersOverride.set_authority (x : PseudoHeadersOverride) (a : Authority) :
    PseudoHeadersOverride :=
  { x with authority := some (BytesStr.fromStr a.as_str) }

/-- `PseudoHeadersOverride::set_authority_str` from `src/ext.rs`: stores
`BytesStr::from(authority)`. -/
def PseudoHeadersOverride.set_authority_str (x : PseudoHeadersOverride) (s : List Nat) :
    PseudoHeadersOverride :=
  { x with authority := some (BytesStr.fromStr s) }

/-- `PseudoHeadersOverride::set_path_and_query` from `src/ext.rs`: stores
`BytesStr::from(path.as_str())`. -/
def PseudoHeadersOverride.set_path_and_query (x : PseudoHeadersOverride) (p : PathAndQuery) :
    PseudoHeadersOverride :=
  { x with path := some (BytesStr.fromStr p.as_str) }

/-- `PseudoHeadersOverride::set_path` from `src/ext.rs`: stores
`BytesStr::from(path.as_ref())`, the string view of the input. -/
def PseudoHeadersOverride.set_path (x : PseudoHeadersOverride) (s : List Nat) :
    PseudoHeadersOverride :=
  { x with path := some (BytesStr.fromStr s) }

/-- `PseudoHeadersOverride::set_protocol` from `src/ext.rs`. -/
def PseudoHeadersOverride.set_protocol (x : PseudoHeadersOverride) (p : Protocol) :
    PseudoHeadersOverride :=
  { x with protocol := some p }

/-! Unfolding lemmas for `utf8Decode`, one per sequence length. -/

theorem utf8Decode_nil : utf8Decode [] = .ok [] := rfl

theorem utf8Decode_cons1 (b : Nat) (rest : List Nat) (h : b < 0x80) :
    utf8Decode (b :: rest) = step 1 b (utf8Decode rest) := by
  rw [utf8Decode.eq_def]
  simp only [if_pos h]

theorem utf8Decode_cons2 (b b1 : Nat) (rest : List Nat)
    (h : 0xC2 ≤ b ∧ b ≤ 0xDF) (h1 : 0x80 ≤ b1 ∧ b1 ≤ 0xBF) :
    utf8Decode (b :: b1 :: rest) =
      step 2 ((b - 0xC0) * 64 + (b1 - 0x80)) (utf8Decode rest) := by
  have hb : ¬ b < 0x80 := by omega
  rw [utf8Decode.eq_def]
  simp only [if_neg hb, if_pos h, if_pos h1]

theorem utf8Decode_cons3 (b b1 b2 : Nat) (rest : List Nat)
    (h : 0xE0 ≤ b ∧ b ≤ 0xEF)
    (h1 : (b = 0xE0 ∧ 0xA0 ≤ b1 ∧ b1 ≤ 0xBF) ∨
          (0xE1 ≤ b ∧ b ≤ 0xEC ∧ 0x80 ≤ b1 ∧ b1 ≤ 0xBF) ∨
          (b = 0xED ∧ 0x80 ≤ b1 ∧ b1 ≤ 0x9F) ∨
          (0xEE ≤ b ∧ 0x80 ≤ b1 ∧ b1 ≤ 0xBF))
    (h2 : 0x80 ≤ b2 ∧ b2 ≤ 0xBF) :
    utf8Decode (b :: b1 :: b2 :: rest) =
      step 3 ((b - 0xE0) * 4096 + (b1 - 0x80) * 64 + (b2 - 0x80))
        (utf8Decode rest) := by
  have hb : ¬ b < 0x80 := by omega
  have hb2 : ¬ (0xC2 ≤ b ∧ b ≤ 0xDF) := by omega
  rw [utf8Decode.eq_def]
  simp only [if_neg hb, if_neg hb2, if_pos h, if_pos h1, if_pos h2]

theorem utf8Decode_cons4 (b b1 b2 b3 : Nat) (rest : List Nat)
    (h : 0xF0 ≤ b ∧ b ≤ 0xF4)
    (h1 : (b = 0xF0 ∧ 0x90 ≤ b1 ∧ b1 ≤ 0xBF) ∨
          (0xF1 ≤ b ∧ b ≤ 0xF3 ∧ 0x80 ≤ b1 ∧ b1 ≤ 0xBF) ∨
          (b = 0xF4 ∧ 0x80 ≤ b1 ∧ b1 ≤ 0x8F))
    (h2 : 0x80 ≤ b2 ∧ b2 ≤ 0xBF) (h3 : 0x80 ≤ b3 ∧ b3 ≤ 0xBF) :
    utf8Decode (b :: b1 :: b2 :: b3 :: rest) =
      step 4 ((b - 0xF0) * 262144 + (b1 - 0x80) * 4096 +
        (b2 - 0x80) * 64 + (b3 - 0x80)) (utf8Decode rest) := by
  have hb : ¬ b < 0x80 := by omega
  have hb2 : ¬ (0xC2 ≤ b ∧ b ≤ 0xDF) := by omega
  have hb3 : ¬ (0xE0 ≤ b ∧ b ≤ 0xEF) := by omega
  rw [utf8Decode.eq_def]
  simp only [if_neg hb, if_neg hb2, if_neg hb3, if_pos h, if_pos h1,
    if_pos h2, if_pos h3]

/-- Decoding a validly encoded scalar followed by arbitrary bytes consumes
exactly that scalar and continues with the remaining bytes. -/
theorem utf8Decode_encodeChar_append (c : Nat) (hc : ValidScalar c)
    (rest : List Nat) :
    utf8Decode (utf8EncodeChar c ++ rest) =
      step (utf8EncodeChar c).length c (utf8Decode rest) := by
  by_cases h1 : c < 0x80
  · rw [utf8EncodeChar, if_pos h1]
    simp only [List.cons_append, List.nil_append, List.length_cons,
      List.length_nil]
    rw [utf8Decode_cons1 c rest h1]
  · by_cases h2 : c < 0x800
    · rw [utf8EncodeChar, if_neg h1, if_pos h2]
      simp only [List.cons_append, List.nil_append, List.length_cons,
        List.length_nil]
      rw [utf8Decode_cons2 _ _ rest (by omega) (by omega)]
      congr 1
      omega
    · by_cases h3 : c < 0x10000
      · have hc2 : c < 0xD800 ∨ (0xE000 ≤ c ∧ c < 0x110000) := hc
        rw [utf8EncodeChar, if_neg h1, if_neg h2, if_pos h3]
        simp only [List.cons_append, List.nil_append, List.length_cons,
          List.length_nil]
        rw [utf8Decode_cons3 _ _ _ rest (by omega) (by omega) (by omega)]
        congr 1
        omega
      · have h4 : c < 0x110000 := by
          rcases hc with h | ⟨_, h⟩ <;> omega
        rw [utf8EncodeChar, if_neg h1, if_neg h2, if_neg h3]
        simp only [List.cons_append, List.nil_append, List.length_cons,
          List.length_nil]
        rw [utf8Decode_cons4 _ _ _ _ rest (by omega) (by omega) (by omega)
          (by omega)]
        congr 1
        omega

/-- Decoding inverts encoding on strings of valid scalar values. -/
theorem utf8Decode_utf8Encode (cs : List Nat)
    (h : ∀ c ∈ cs, ValidScalar c) :
    utf8Decode (utf8Encode cs) = .ok cs := by
  induction cs with
  | nil => rfl
  | cons c cs ih =>
    have hc : ValidScalar c := h c (List.mem_cons_self c cs)
    have hcs : ∀ x ∈ cs, ValidScalar x := fun x hx => h x (List.mem_cons_of_mem c hx)
    have : utf8Encode (c :: cs) = utf8EncodeChar c ++ utf8Encode cs := by
      simp [utf8Encode]
    rw [this, utf8Decode_encodeChar_append c hc, ih hcs]
    rfl

/-! Reconstruction lemmas: the bytes consumed for one scalar are exactly
its encoding. -/

theorem utf8EncodeChar_one (b : Nat) (h : b < 0x80) :
    utf8EncodeChar b = [b] := by
  rw [utf8EncodeChar, if_pos h]

theorem utf8EncodeChar_two (b b1 : Nat)
    (h : 0xC2 ≤ b ∧ b ≤ 0xDF) (h1 : 0x80 ≤ b1 ∧ b1 ≤ 0xBF) :
    utf8EncodeChar ((b - 0xC0) * 64 + (b1 - 0x80)) = [b, b1] := by
  rw [utf8EncodeChar, if_neg (by omega), if_pos (by omega)]
  simp only [List.cons.injEq, and_true]
  omega

theorem utf8EncodeChar_three (b b1 b2 : Nat)
    (h : 0xE0 ≤ b ∧ b ≤ 0xEF)
    (h1 : (b = 0xE0 ∧ 0xA0 ≤ b1 ∧ b1 ≤ 0xBF) ∨
          (0xE1 ≤ b ∧ b ≤ 0xEC ∧ 0x80 ≤ b1 ∧ b1 ≤ 0xBF) ∨
          (b = 0xED ∧ 0x80 ≤ b1 ∧ b1 ≤ 0x9F) ∨
          (0xEE ≤ b ∧ 0x80 ≤ b1 ∧ b1 ≤ 0xBF))
    (h2 : 0x80 ≤ b2 ∧ b2 ≤ 0xBF) :
    utf8EncodeChar ((b - 0xE0) * 4096 + (b1 - 0x80) * 64 + (b2 - 0x80)) =
      [b, b1, b2] := by
  rw [utf8EncodeChar, if_neg (by omega), if_neg (by omega), if_pos (by omega)]
  simp only [List.cons.injEq, and_true]
  omega

theorem utf8EncodeChar_four (b b1 b2 b3 : Nat)
    (h : 0xF0 ≤ b ∧ b ≤ 0xF4)
    (h1 : (b = 0xF0 ∧ 0x90 ≤ b1 ∧ b1 ≤ 0xBF) ∨
          (0xF1 ≤ b ∧ b ≤ 0xF3 ∧ 0x80 ≤ b1 ∧ b1 ≤ 0xBF) ∨
          (b = 0xF4 ∧ 0x80 ≤ b1 ∧ b1 ≤ 0x8F))
    (h2 : 0x80 ≤ b2 ∧ b2 ≤ 0xBF) (h3 : 0x80 ≤ b3 ∧ b3 ≤ 0xBF) :
    utf8EncodeChar ((b - 0xF0) * 262144 + (b1 - 0x80) * 4096 +
      (b2 - 0x80) * 64 + (b3 - 0x80)) = [b, b1, b2, b3] := by
  rw [utf8EncodeChar, if_neg (by omega), if_neg (by omega), if_neg (by omega)]
  simp only [List.cons.injEq, and_true]
  omega

theorem utf8EncodeChar_length_pos (c : Nat) :
    1 ≤ (utf8EncodeChar c).length := by
  rw [utf8EncodeChar]
  split_ifs <;> simp

/-- Head inversion for the decoder: a byte buffer is empty, starts with the
encoding of some valid scalar, or fails to decode right at its start. -/
theorem utf8Decode_head (l : List Nat) :
    l = [] ∨
    (∃ c rest, ValidScalar c ∧ l = utf8EncodeChar c ++ rest) ∨
    (utf8Decode l = .error 0 ∧ l ≠ []) := by
  induction l using utf8Decode.induct
  case case1 =>
    exact Or.inl rfl
  case case2 b rest hb _ =>
    refine Or.inr (Or.inl ⟨b, rest, Or.inl (by omega), ?_⟩)
    rw [utf8EncodeChar_one b hb]
    rfl
  case case3 b hb h =>
    refine Or.inr (Or.inr ⟨?_, by simp⟩)
    rw [utf8Decode.eq_def]
    simp only [if_neg hb, if_pos h]
  case case4 b hb h b1 rest1 h1 _ =>
    refine Or.inr (Or.inl ⟨(b - 0xC0) * 64 + (b1 - 0x80), rest1,
      Or.inl (by omega), ?_⟩)
    rw [utf8EncodeChar_two b b1 h h1]
    rfl
  case case5 b hb h b1 rest1 h1 =>
    refine Or.inr (Or.inr ⟨?_, by simp⟩)
    rw [utf8Decode.eq_def]
    simp only [if_neg hb, if_pos h, if_neg h1]
  case case6 b hb h2 h =>
    refine Or.inr (Or.inr ⟨?_, by simp⟩)
    rw [utf8Decode.eq_def]
    simp only [if_neg hb, if_neg h2, if_pos h]
  case case7 b hb h2 h b1 h1 =>
    refine Or.inr (Or.inr ⟨?_, by simp⟩)
    rw [utf8Decode.eq_def]
    simp only [if_neg hb, if_neg h2, if_pos h, if_pos h1]
  case case8 b hb h2 h b1 h1 b2 rest2 hc2 _ =>
    refine Or.inr (Or.inl ⟨(b - 0xE0) * 4096 + (b1 - 0x80) * 64 + (b2 - 0x80),
      rest2, ?_, ?_⟩)
    · simp only [ValidScalar]
      omega
    · rw [utf8EncodeChar_three b b1 b2 h h1 hc2]
      rfl
  case case9 b hb h2 h b1 h1 b2 rest2 hc2 =>
    refine Or.inr (Or.inr ⟨?_, by simp⟩)
    rw [utf8Decode.eq_def]
    simp only [if_neg hb, if_neg h2, if_pos h, if_pos h1, if_neg hc2]
  case case10 b hb h2 h b1 rest1 h1 =>
    refine Or.inr (Or.inr ⟨?_, by simp⟩)
    rw [utf8Decode.eq_def]
    simp only [if_neg hb, if_neg h2, if_pos h, if_neg h1]
  case case11 b hb h2 h3 h =>
    refine Or.inr (Or.inr ⟨?_, by simp⟩)
    rw [utf8Decode.eq_def]
    simp only [if_neg hb, if_neg h2, if_neg h3, if_pos h]
  case case12 b hb h2 h3 h b1 h1 =>
    refine Or.inr (Or.inr ⟨?_, by simp⟩)
    rw [utf8Decode.eq_def]
    simp only [if_neg hb, if_neg h2, if_neg h3, if_pos h, if_pos h1]
  case case13 b hb h2 h3 h b1 h1 b2 hc2 =>
    refine Or.inr (Or.inr ⟨?_, by simp⟩)
    rw [utf8Decode.eq_def]
    simp only [if_neg hb, if_neg h2, if_neg h3, if_pos h, if_pos h1,
      if_pos hc2]
  case case14 b hb h2 h3 h b1 h1 b2 hc2 b3 rest3 hc3 _ =>
    refine Or.inr (Or.inl ⟨(b - 0xF0) * 262144 + (b1 - 0x80) * 4096 +
      (b2 - 0x80) * 64 + (b3 - 0x80), rest3, ?_, ?_⟩)
    · simp only [ValidScalar]
      omega
    · rw [utf8EncodeChar_four b b1 b2 b3 h h1 hc2 hc3]
      rfl
  case case15 b hb h2 h3 h b1 h1 b2 hc2 b3 rest3 hc3 =>
    refine Or.inr (Or.inr ⟨?_, by simp⟩)
    rw [utf8Decode.eq_def]
    simp only [if_neg hb, if_neg h2, if_neg h3, if_pos h, if_pos h1,
      if_pos hc2, if_neg hc3]
  case case16 b hb h2 h3 h b1 h1 b2 rest2 hc2 =>
    refine Or.inr (Or.inr ⟨?_, by simp⟩)
    rw [utf8Decode.eq_def]
    simp only [if_neg hb, if_neg h2, if_neg h3, if_pos h, if_pos h1,
      if_neg hc2]
  case case17 b hb h2 h3 h b1 rest1 h1 =>
    refine Or.inr (Or.inr ⟨?_, by simp⟩)
    rw [utf8Decode.eq_def]
    simp only [if_neg hb, if_neg h2, if_neg h3, if_pos h, if_neg h1]
  case case18 b rest hb h2 h3 h4 =>
    refine Or.inr (Or.inr ⟨?_, by simp⟩)
    rw [utf8Decode.eq_def]
    simp only [if_neg hb, if_neg h2, if_neg h3, if_neg h4]

/-- Soundness of a successful decode: the input is exactly the encoding of
the decoded scalars, and all of them are valid. -/
theorem utf8Decode_ok_spec_aux (n : Nat) :
    ∀ l cs, l.length ≤ n → utf8Decode l = .ok cs →
      utf8Encode cs = l ∧ ∀ c ∈ cs, ValidScalar c := by
  induction n with
  | zero =>
    intro l cs hlen h
    have hl : l = [] := List.eq_nil_of_length_eq_zero (Nat.le_zero.mp hlen)
    subst hl
    have : cs = [] := by
      rw [utf8Decode_nil] at h
      exact (Except.ok.injEq _ _).mp h.symm
    subst this
    exact ⟨rfl, by simp⟩
  | succ n ih =>
    intro l cs hlen h
    rcases utf8Decode_head l with hnil | ⟨c, rest, hc, hl⟩ | ⟨herr, _⟩
    · subst hnil
      have : cs = [] := by
        rw [utf8Decode_nil] at h
        exact (Except.ok.injEq _ _).mp h.symm
      subst this
      exact ⟨rfl, by simp⟩
    · subst hl
      rw [utf8Decode_encodeChar_append c hc rest] at h
      cases hr : utf8Decode rest with
      | ok cs1 =>
        rw [hr] at h
        have hcs : cs = c :: cs1 := by
          simp only [step] at h
          exact ((Except.ok.injEq _ _).mp h).symm
        subst hcs
        have hrlen : rest.length ≤ n := by
          have h1 := utf8EncodeChar_length_pos c
          have h2 : (utf8EncodeChar c ++ rest).length =
              (utf8EncodeChar c).length + rest.length := List.length_append _ _
          omega
        obtain ⟨henc, hval⟩ := ih rest cs1 hrlen hr
        constructor
        · have hsplit : utf8Encode (c :: cs1) =
              utf8EncodeChar c ++ utf8Encode cs1 := by
            simp [utf8Encode]
          rw [hsplit, henc]
        · intro x hx
          rcases List.mem_cons.mp hx with hx | hx
          · subst hx
            exact hc
          · exact hval x hx
      | error e =>
        rw [hr] at h
        simp only [step] at h
        exact absurd h (by simp)
    · rw [herr] at h
      exact absurd h (by simp)

/-- Soundness of a failed decode: the reported offset is within the buffer
and the bytes before it are valid UTF-8. -/
theorem utf8Decode_error_spec_aux (n : Nat) :
    ∀ l e, l.length ≤ n → utf8Decode l = .error e →
      e < l.length ∧
      ∃ cs, (∀ c ∈ cs, ValidScalar c) ∧ l.take e = utf8Encode cs := by
  induction n with
  | zero =>
    intro l e hlen h
    have hl : l = [] := List.eq_nil_of_length_eq_zero (Nat.le_zero.mp hlen)
    subst hl
    rw [utf8Decode_nil] at h
    exact absurd h (by simp)
  | succ n ih =>
    intro l e hlen h
    rcases utf8Decode_head l with hnil | ⟨c, rest, hc, hl⟩ | ⟨herr, hne⟩
    · subst hnil
      rw [utf8Decode_nil] at h
      exact absurd h (by simp)
    · subst hl
      rw [utf8Decode_encodeChar_append c hc rest] at h
      cases hr : utf8Decode rest with
      | ok cs1 =>
        rw [hr] at h
        simp only [step] at h
        exact absurd h (by simp)
      | error e1 =>
        rw [hr] at h
        simp only [step, Except.error.injEq] at h
        have hrlen : rest.length ≤ n := by
          have h1 := utf8EncodeChar_length_pos c
          have h2 : (utf8EncodeChar c ++ rest).length =
              (utf8EncodeChar c).length + rest.length := List.length_append _ _
          omega
        obtain ⟨he1, cs1, hval1, htake1⟩ := ih rest e1 hrlen hr
        constructor
        · rw [List.length_append]
          omega
        · refine ⟨c :: cs1, ?_, ?_⟩
          · intro x hx
            rcases List.mem_cons.mp hx with hx | hx
            · subst hx
              exact hc
            · exact hval1 x hx
          · rw [← h, List.take_append_eq_append_take,
              List.take_of_length_le (by omega)]
            have : (utf8EncodeChar c).length + e1 - (utf8EncodeChar c).length
                = e1 := by omega
            rw [this, htake1]
            show _ = utf8EncodeChar c ++ (cs1.map utf8EncodeChar).flatten
            rfl
    · have he : e = 0 := by
        rw [herr] at h
        exact ((Except.error.injEq _ _).mp h).symm
      subst he
      refine ⟨?_, [], by simp, rfl⟩
      cases l with
      | nil => exact absurd rfl hne
      | cons x xs => simp

/-- A valid segment at the front of the buffer never extends past the
offset reported by a failing decode. -/
theorem utf8Decode_take_le (cs : List Nat) :
    ∀ l m e, (∀ c ∈ cs, ValidScalar c) → l.take m = utf8Encode cs →
      m ≤ l.length → utf8Decode l = .error e → m ≤ e := by
  induction cs with
  | nil =>
    intro l m e _ ht hm hd
    rcases List.take_eq_nil_iff.mp ht with hm0 | hl
    · omega
    · subst hl
      rw [utf8Decode_nil] at hd
      exact absurd hd (by simp)
  | cons c cs ih =>
    intro l m e hv ht hm hd
    have hc : ValidScalar c := hv c (List.mem_cons_self c cs)
    have hcs : ∀ x ∈ cs, ValidScalar x :=
      fun x hx => hv x (List.mem_cons_of_mem c hx)
    have henc : utf8Encode (c :: cs) = utf8EncodeChar c ++ utf8Encode cs := by
      simp [utf8Encode]
    rw [henc] at ht
    have hmlen : m = (utf8EncodeChar c).length + (utf8Encode cs).length := by
      have h1 : (l.take m).length = m := by
        rw [List.length_take]
        omega
      rw [ht, List.length_append] at h1
      omega
    have hldecomp : l = utf8EncodeChar c ++ (utf8Encode cs ++ l.drop m) := by
      conv_lhs => rw [← List.take_append_drop m l]
      rw [ht, List.append_assoc]
    rw [hldecomp, utf8Decode_encodeChar_append c hc] at hd
    cases hr : utf8Decode (utf8Encode cs ++ l.drop m) with
    | ok cs1 =>
      rw [hr] at hd
      simp only [step] at hd
      exact absurd hd (by simp)
    | error e1 =>
      rw [hr] at hd
      simp only [step, Except.error.injEq] at hd
      have htake2 : (utf8Encode cs ++ l.drop m).take (utf8Encode cs).length
          = utf8Encode cs := by
        rw [List.take_append_eq_append_take, List.take_of_length_le le_rfl,
          Nat.sub_self, List.take_zero, List.append_nil]
      have hle2 : (utf8Encode cs).length ≤
          (utf8Encode cs ++ l.drop m).length := by
        rw [List.length_append]
        omega
      have := ih (utf8Encode cs ++ l.drop m) (utf8Encode cs).length e1
        hcs htake2 hle2 hr
      omega

/-- Packaged soundness of a successful decode, at any length. -/
theorem utf8Decode_ok_spec (l cs : List Nat) (h : utf8Decode l = .ok cs) :
    utf8Encode cs = l ∧ ∀ c ∈ cs, ValidScalar c :=
  utf8Decode_ok_spec_aux l.length l cs le_rfl h

/-- Packaged soundness of a failed decode, at any length. -/
theorem utf8Decode_error_spec (l : List Nat) (e : Nat)
    (h : utf8Decode l = .error e) :
    e < l.length ∧
    ∃ cs, (∀ c ∈ cs, ValidScalar c) ∧ l.take e = utf8Encode cs :=
  utf8Decode_error_spec_aux l.length l e le_rfl h

/-- A byte buffer is valid UTF-8 exactly when decoding succeeds. -/
theorem utf8Valid_iff (b : List Nat) :
    Utf8Valid b ↔ ∃ cs, utf8Decode b = .ok cs := by
  constructor
  · rintro ⟨cs, hv, hb⟩
    exact ⟨cs, by rw [hb, utf8Decode_utf8Encode cs hv]⟩
  · rintro ⟨cs, h⟩
    obtain ⟨henc, hval⟩ := utf8Decode_ok_spec b cs h
    exact ⟨cs, hval, henc.symm⟩

/-- Inversion of a successful `Protocol::try_from`: the value holds exactly
the input bytes, and those bytes are valid UTF-8. -/
theorem try_from_ok_inv (b : List Nat) (p : Protocol)
    (h : Protocol.try_from b = .ok p) :
    p = ⟨⟨b⟩⟩ ∧ Utf8Valid b := by
  cases hd : utf8Decode b with
  | ok cs =>
    simp only [Protocol.try_from, BytesStr.try_from, hd] at h
    exact ⟨((Except.ok.injEq _ _).mp h).symm, (utf8Valid_iff b).mpr ⟨cs, hd⟩⟩
  | error e =>
    simp only [Protocol.try_from, BytesStr.try_from, hd] at h
    exact absurd h (by simp)

/-- On a valid payload the string view re-encodes to the raw bytes. -/
theorem BytesStr.as_str_encode (s : BytesStr) (h : Utf8Valid s.bytes) :
    utf8Encode s.as_str = s.bytes := by
  obtain ⟨cs, hok⟩ := (utf8Valid_iff _).mp h
  simp only [BytesStr.as_str, hok]
  exact (utf8Decode_ok_spec _ _ hok).1

/-- Building a `BytesStr` from a string and reading it back is the
identity. -/
theorem BytesStr.as_str_fromStr (s : List Nat) (h : ∀ c ∈ s, ValidScalar c) :
    (BytesStr.fromStr s).as_str = s := by
  simp only [BytesStr.fromStr, BytesStr.as_str, utf8Decode_utf8Encode s h]

/-- Folding a list of pairwise commuting state transformers is invariant
under permutation of the list. -/
theorem foldl_comp_perm {α : Type} (l1 l2 : List (α → α)) (h : l1.Perm l2) :
    (∀ f ∈ l1, ∀ g ∈ l1, ∀ x, f (g x) = g (f x)) →
    ∀ x, List.foldl (fun a f => f a) x l1 = List.foldl (fun a f => f a) x l2 := by
  induction h with
  | nil =>
    intro _ x
    rfl
  | cons f hperm ih =>
    intro hc x
    simp only [List.foldl_cons]
    exact ih (fun g hg g2 hg2 y =>
      hc g (List.mem_cons_of_mem f hg) g2 (List.mem_cons_of_mem f hg2) y) (f x)
  | swap f g t =>
    intro hc x
    simp only [List.foldl_cons]
    rw [hc g (List.mem_cons_self g _) f
      (List.mem_cons_of_mem g (List.mem_cons_self f _)) x]
  | trans h12 h23 ih1 ih2 =>
    intro hc x
    rw [ih1 hc x]
    exact ih2 (fun f hf g hg y =>
      hc f (h12.mem_iff.mpr hf) g (h12.mem_iff.mpr hg) y) x

example : utf8Decode [0xFF, 0xFE] = .error 0 := rfl
example : utf8Decode [0x41, 0xFF] = .error 1 := rfl
example : utf8Decode [0xC3, 0xA9] = .ok [0xE9] := rfl
example : utf8Decode [0xE2, 0x82, 0xAC] = .ok [0x20AC] := rfl
example : utf8Decode [0xF0, 0x9F, 0x98, 0x80] = .ok [0x1F600] := rfl
example : utf8Decode [0xED, 0xA0, 0x80] = .error 0 := rfl
example : utf8Decode [0xC0, 0xAF] = .error 0 := rfl
example : utf8Decode [0x41, 0xC2] = .error 1 := rfl
example : utf8EncodeChar 0xE9 = [0xC3, 0xA9] := rfl
example : utf8EncodeChar 0x20AC = [0xE2, 0x82, 0xAC] := rfl
example : utf8EncodeChar 0x1F600 = [0xF0, 0x9F, 0x98, 0x80] := rfl


/-- C1: for every byte buffer `b` that is valid UTF-8 (ASCII or not),
`Protocol::try_from` succeeds on `b` and the resulting value's string view
`as_str` equals the UTF-8 decoding of `b`. -/
theorem claim_C1 (b : List Nat) (h : Utf8Valid b) :
    ∃ p cs, Protocol.try_from b = .ok p ∧ utf8Decode b = .ok cs ∧
      p.as_str = cs := by
  obtain ⟨cs, hok⟩ := (utf8Valid_iff b).mp h
  refine ⟨⟨⟨b⟩⟩, cs, ?_, hok, ?_⟩
  · simp only [Protocol.try_from, BytesStr.try_from, hok]
  · simp only [Protocol.as_str, BytesStr.as_str, hok]

/-- Witness for C1 at the non-ASCII valid buffer `[0xC3, 0xA9]`. -/
theorem claim_C1_witness :
    Utf8Valid [0xC3, 0xA9] ∧
    ∃ p cs, Protocol.try_from [0xC3, 0xA9] = .ok p ∧
      utf8Decode [0xC3, 0xA9] = .ok cs ∧ p.as_str = cs :=
  ⟨⟨[0xE9], by decide, rfl⟩, claim_C1 [0xC3, 0xA9] ⟨[0xE9], by decide, rfl⟩⟩

/-- C2: if the first invalid UTF-8 sequence of `b` starts at offset `k`
(the bytes before `k` are valid and no longer front segment is), then
`Protocol::try_from` fails on `b` and the error reports offset `k`. -/
theorem claim_C2 (b : List Nat) (k : Nat)
    (hk : Utf8Valid (b.take k)) (hklen : k < b.length)
    (hmax : ∀ m, k < m → m ≤ b.length → ¬ Utf8Valid (b.take m)) :
    Protocol.try_from b = .error k := by
  cases hd : utf8Decode b with
  | ok cs =>
    exfalso
    apply hmax b.length hklen le_rfl
    rw [List.take_length]
    exact (utf8Valid_iff b).mpr ⟨cs, hd⟩
  | error e =>
    have heq : Protocol.try_from b = .error e := by
      simp only [Protocol.try_from, BytesStr.try_from, hd]
    obtain ⟨helen, cs, hval, htake⟩ := utf8Decode_error_spec b e hd
    rcases Nat.lt_trichotomy k e with hlt | hke | hgt
    · exact absurd ⟨cs, hval, htake⟩ (hmax e hlt (by omega))
    · rw [heq, hke]
    · obtain ⟨cs2, hval2, htake2⟩ := hk
      have hle := utf8Decode_take_le cs2 b k e hval2 htake2 (by omega) hd
      omega

/-- Witness for C2 at the buffer `[0xFF, 0xFE]` with offset `0`. -/
theorem claim_C2_witness :
    Utf8Valid (([0xFF, 0xFE] : List Nat).take 0) ∧
    0 < ([0xFF, 0xFE] : List Nat).length ∧
    Protocol.try_from [0xFF, 0xFE] = .error 0 := by
  refine ⟨⟨[], by simp, rfl⟩, by decide, ?_⟩
  apply claim_C2 [0xFF, 0xFE] 0 ⟨[], by simp, rfl⟩ (by decide)
  intro m h1 h2 hval
  obtain ⟨cs, hok⟩ := (utf8Valid_iff _).mp hval
  have hl2 : ([0xFF, 0xFE] : List Nat).length = 2 := rfl
  have hm : m = 1 ∨ m = 2 := by omega
  rcases hm with rfl | rfl
  · have h0 : utf8Decode (([0xFF, 0xFE] : List Nat).take 1) = .error 0 := rfl
    rw [h0] at hok
    exact absurd hok (by simp)
  · have h0 : utf8Decode (([0xFF, 0xFE] : List Nat).take 2) = .error 0 := rfl
    rw [h0] at hok
    exact absurd hok (by simp)

/-- C3: every `Protocol` produced by `from_static`, `From` on a string, or
a successful `try_from` carries a valid UTF-8 payload: the byte view is
valid and the string view re-encodes to exactly the byte view. -/
theorem claim_C3 (p : Protocol)
    (h : (∃ s, (∀ c ∈ s, ValidScalar c) ∧ p = Protocol.from_static s) ∨
         (∃ s, (∀ c ∈ s, ValidScalar c) ∧ p = Protocol.fromStr s) ∨
         (∃ b, Protocol.try_from b = .ok p)) :
    Utf8Valid p.as_ref ∧ utf8Encode p.as_str = p.as_ref := by
  have hvalid : Utf8Valid p.value.bytes := by
    rcases h with ⟨s, hv, rfl⟩ | ⟨s, hv, rfl⟩ | ⟨b, hok⟩
    · exact ⟨s, hv, rfl⟩
    · exact ⟨s, hv, rfl⟩
    · obtain ⟨hp, hb⟩ := try_from_ok_inv b p hok
      subst hp
      exact hb
  exact ⟨hvalid, BytesStr.as_str_encode p.value hvalid⟩

/-- Witness for C3 at `Protocol::from_static` of the string `h2c`. -/
theorem claim_C3_witness :
    Utf8Valid (Protocol.from_static [104, 50, 99]).as_ref ∧
    utf8Encode (Protocol.from_static [104, 50, 99]).as_str =
      (Protocol.from_static [104, 50, 99]).as_ref :=
  claim_C3 (Protocol.from_static [104, 50, 99])
    (Or.inl ⟨[104, 50, 99], by decide, rfl⟩)

/-- C4: two `Protocol` values with valid payloads are equal exactly when
their string payloads are equal; and for every string, the static and the
borrowed construction paths agree. -/
theorem claim_C4 :
    (∀ p q : Protocol, Utf8Valid p.as_ref → Utf8Valid q.as_ref →
      (p = q ↔ p.as_str = q.as_str)) ∧
    (∀ s : List Nat, Protocol.from_static s = Protocol.fromStr s) := by
  constructor
  · intro p q hp hq
    constructor
    · intro h
      rw [h]
    · intro h
      have h1 : utf8Encode p.as_str = p.as_ref :=
        BytesStr.as_str_encode p.value hp
      have h2 : utf8Encode q.as_str = q.as_ref :=
        BytesStr.as_str_encode q.value hq
      have hb : p.as_ref = q.as_ref := by
        rw [← h1, ← h2, h]
      cases p with
      | mk pv =>
        cases q with
        | mk qv =>
          cases pv with
          | mk pb =>
            cases qv with
            | mk qb =>
              simp only [Protocol.as_ref, BytesStr.as_ref] at hb
              rw [hb]
  · intro s
    rfl

/-- Witness for C4 at two equal-payload values built through the two
construction paths. -/
theorem claim_C4_witness :
    Utf8Valid (Protocol.from_static [104, 50, 99]).as_ref ∧
    Utf8Valid (Protocol.fromStr [104, 50, 99]).as_ref ∧
    (Protocol.from_static [104, 50, 99] = Protocol.fromStr [104, 50, 99] ↔
      (Protocol.from_static [104, 50, 99]).as_str =
        (Protocol.fromStr [104, 50, 99]).as_str) ∧
    Protocol.from_static [104, 50, 99] = Protocol.fromStr [104, 50, 99] :=
  ⟨⟨[104, 50, 99], by decide, rfl⟩, ⟨[104, 50, 99], by decide, rfl⟩,
   claim_C4.1 (Protocol.from_static [104, 50, 99])
     (Protocol.fromStr [104, 50, 99])
     ⟨[104, 50, 99], by decide, rfl⟩ ⟨[104, 50, 99], by decide, rfl⟩,
   claim_C4.2 [104, 50, 99]⟩


/-- C5: a fresh override set has all five fields unset; each setter sets
exactly its own field and leaves every other field unchanged; the
scenario `new().set_path("/a/b").set_protocol(from_static("h2c"))` yields
path `"/a/b"`, protocol `"h2c"`, and the rest unset. -/
theorem claim_C5 :
    (PseudoHeadersOverride.new.method = none ∧
     PseudoHeadersOverride.new.scheme = none ∧
     PseudoHeadersOverride.new.authority = none ∧
     PseudoHeadersOverride.new.path = none ∧
     PseudoHeadersOverride.new.protocol = none) ∧
    (∀ (x : PseudoHeadersOverride) (m : Method),
      (x.set_method m).method = some m ∧
      (x.set_method m).scheme = x.scheme ∧
      (x.set_method m).authority = x.authority ∧
      (x.set_method m).path = x.path ∧
      (x.set_method m).protocol = x.protocol) ∧
    (∀ (x : PseudoHeadersOverride) (s : Scheme),
      (x.set_scheme s).scheme = some s ∧
      (x.set_scheme s).method = x.method ∧
      (x.set_scheme s).authority = x.authority ∧
      (x.set_scheme s).path = x.path ∧
      (x.set_scheme s).protocol = x.protocol) ∧
    (∀ (x : PseudoHeadersOverride) (a : Authority),
      (x.set_authority a).authority = some (BytesStr.fromStr a.as_str) ∧
      (x.set_authority a).method = x.method ∧
      (x.set_authority a).scheme = x.scheme ∧
      (x.set_authority a).path = x.path ∧
      (x.set_authority a).protocol = x.protocol) ∧
    (∀ (x : PseudoHeadersOverride) (s : List Nat),
      (x.set_authority_str s).authority = some (BytesStr.fromStr s) ∧
      (x.set_authority_str s).method = x.method ∧
      (x.set_authority_str s).scheme = x.scheme ∧
      (x.set_authority_str s).path = x.path ∧
      (x.set_authority_str s).protocol = x.protocol) ∧
    (∀ (x : PseudoHeadersOverride) (p : PathAndQuery),
      (x.set_path_and_query p).path = some (BytesStr.fromStr p.as_str) ∧
      (x.set_path_and_query p).method = x.method ∧
      (x.set_path_and_query p).scheme = x.scheme ∧
      (x.set_path_and_query p).authority = x.authority ∧
      (x.set_path_and_query p).protocol = x.protocol) ∧
    (∀ (x : PseudoHeadersOverride) (s : List Nat),
      (x.set_path s).path = some (BytesStr.fromStr s) ∧
      (x.set_path s).method = x.method ∧
      (x.set_path s).scheme = x.scheme ∧
      (x.set_path s).authority = x.authority ∧
      (x.set_path s).protocol = x.protocol) ∧
    (∀ (x : PseudoHeadersOverride) (p : Protocol),
      (x.set_protocol p).protocol = some p ∧
      (x.set_protocol p).method = x.method ∧
      (x.set_protocol p).scheme = x.scheme ∧
      (x.set_protocol p).authority = x.authority ∧
      (x.set_protocol p).path = x.path) ∧
    (((PseudoHeadersOverride.new.set_path [47, 97, 47, 98]).set_protocol
        (Protocol.from_static [104, 50, 99])).path.map BytesStr.as_str =
      some [47, 97, 47, 98] ∧
     ((PseudoHeadersOverride.new.set_path [47, 97, 47, 98]).set_protocol
        (Protocol.from_static [104, 50, 99])).protocol.map Protocol.as_str =
      some [104, 50, 99] ∧
     ((PseudoHeadersOverride.new.set_path [47, 97, 47, 98]).set_protocol
        (Protocol.from_static [104, 50, 99])).method = none ∧
     ((PseudoHeadersOverride.new.set_path [47, 97, 47, 98]).set_protocol
        (Protocol.from_static [104, 50, 99])).scheme = none ∧
     ((PseudoHeadersOverride.new.set_path [47, 97, 47, 98]).set_protocol
        (Protocol.from_static [104, 50, 99])).authority = none) :=
  ⟨⟨rfl, rfl, rfl, rfl, rfl⟩,
   fun x m => ⟨rfl, rfl, rfl, rfl, rfl⟩,
   fun x s => ⟨rfl, rfl, rfl, rfl, rfl⟩,
   fun x a => ⟨rfl, rfl, rfl, rfl, rfl⟩,
   fun x s => ⟨rfl, rfl, rfl, rfl, rfl⟩,
   fun x p => ⟨rfl, rfl, rfl, rfl, rfl⟩,
   fun x s => ⟨rfl, rfl, rfl, rfl, rfl⟩,
   fun x p => ⟨rfl, rfl, rfl, rfl, rfl⟩,
   ⟨rfl, rfl, rfl, rfl, rfl⟩⟩

/-- C6: chaining the five distinct setters in any order on a fresh set
yields the same fully-populated set, each field holding the value passed
to its setter. -/
theorem claim_C6 (m : Method) (sc : Scheme) (au pa : List Nat) (pr : Protocol)
    (l : List (PseudoHeadersOverride → PseudoHeadersOverride))
    (hperm : l.Perm
      [fun x => x.set_method m, fun x => x.set_scheme sc,
       fun x => x.set_authority_str au, fun x => x.set_path pa,
       fun x => x.set_protocol pr]) :
    List.foldl (fun a f => f a) PseudoHeadersOverride.new l =
      ⟨some m, some sc, some (BytesStr.fromStr au), some (BytesStr.fromStr pa),
       some pr⟩ := by
  have hcomm : ∀ f ∈ ([fun x => x.set_method m, fun x => x.set_scheme sc,
       fun x => x.set_authority_str au, fun x => x.set_path pa,
       fun x => x.set_protocol pr] :
         List (PseudoHeadersOverride → PseudoHeadersOverride)),
      ∀ g ∈ ([fun x => x.set_method m, fun x => x.set_scheme sc,
       fun x => x.set_authority_str au, fun x => x.set_path pa,
       fun x => x.set_protocol pr] :
         List (PseudoHeadersOverride → PseudoHeadersOverride)),
      ∀ x, f (g x) = g (f x) := by
    intro f hf g hg x
    simp only [List.mem_cons, List.not_mem_nil, or_false] at hf hg
    rcases hf with rfl | rfl | rfl | rfl | rfl <;>
      rcases hg with rfl | rfl | rfl | rfl | rfl <;> rfl
  have hstep := foldl_comp_perm l
    [fun x => x.set_method m, fun x => x.set_scheme sc,
     fun x => x.set_authority_str au, fun x => x.set_path pa,
     fun x => x.set_protocol pr] hperm
    (fun f hf g hg x => hcomm f (hperm.subset hf) g (hperm.subset hg) x)
    PseudoHeadersOverride.new
  rw [hstep]
  rfl

/-- Witness for C6: applying the five setters with the first two swapped
produces the fully-populated set. -/
theorem claim_C6_witness :
    (([fun x => x.set_scheme ⟨[104]⟩, fun x => x.set_method ⟨[71]⟩,
       fun x => x.set_authority_str [97], fun x => x.set_path [47],
       fun x => x.set_protocol (Protocol.from_static [119])] :
        List (PseudoHeadersOverride → PseudoHeadersOverride)).Perm
      [fun x => x.set_method ⟨[71]⟩, fun x => x.set_scheme ⟨[104]⟩,
       fun x => x.set_authority_str [97], fun x => x.set_path [47],
       fun x => x.set_protocol (Protocol.from_static [119])]) ∧
    List.foldl (fun a f => f a) PseudoHeadersOverride.new
      [fun x => x.set_scheme ⟨[104]⟩, fun x => x.set_method ⟨[71]⟩,
       fun x => x.set_authority_str [97], fun x => x.set_path [47],
       fun x => x.set_protocol (Protocol.from_static [119])] =
      ⟨some ⟨[71]⟩, some ⟨[104]⟩, some (BytesStr.fromStr [97]),
       some (BytesStr.fromStr [47]), some (Protocol.from_static [119])⟩ :=
  ⟨List.Perm.swap _ _ _,
   claim_C6 ⟨[71]⟩ ⟨[104]⟩ [97] [47] (Protocol.from_static [119]) _
     (List.Perm.swap _ _ _)⟩

/-- C7: when `Protocol::try_from` succeeds on `b`, the raw byte view of
the result is exactly `b`, and the UTF-8 bytes of its string view are that
same byte view. -/
theorem claim_C7 (b : List Nat) (p : Protocol)
    (h : Protocol.try_from b = .ok p) :
    p.as_ref = b ∧ utf8Encode p.as_str = b := by
  obtain ⟨hp, hval⟩ := try_from_ok_inv b p h
  subst hp
  exact ⟨rfl, BytesStr.as_str_encode ⟨b⟩ hval⟩

/-- Witness for C7 at the bytes of `websocket`. -/
theorem claim_C7_witness :
    Protocol.try_from [119, 101, 98, 115, 111, 99, 107, 101, 116] =
      .ok ⟨⟨[119, 101, 98, 115, 111, 99, 107, 101, 116]⟩⟩ ∧
    (Protocol.as_ref ⟨⟨[119, 101, 98, 115, 111, 99, 107, 101, 116]⟩⟩ =
       [119, 101, 98, 115, 111, 99, 107, 101, 116] ∧
     utf8Encode (Protocol.as_str ⟨⟨[119, 101, 98, 115, 111, 99, 107, 101, 116]⟩⟩) =
       [119, 101, 98, 115, 111, 99, 107, 101, 116]) ∧
    Protocol.as_str ⟨⟨[119, 101, 98, 115, 111, 99, 107, 101, 116]⟩⟩ =
      [119, 101, 98, 115, 111, 99, 107, 101, 116] :=
  ⟨rfl,
   claim_C7 [119, 101, 98, 115, 111, 99, 107, 101, 116]
     ⟨⟨[119, 101, 98, 115, 111, 99, 107, 101, 116]⟩⟩ rfl,
   rfl⟩

/-- C8: the structured setters store exactly the string rendering of their
input, the raw-string setters store the given string verbatim (and its
string view reads back unchanged for any valid string, with no grammar
check anywhere). -/
theorem claim_C8 :
    (∀ (x : PseudoHeadersOverride) (a : Authority),
      (x.set_authority a).authority = some (BytesStr.fromStr a.as_str)) ∧
    (∀ (x : PseudoHeadersOverride) (p : PathAndQuery),
      (x.set_path_and_query p).path = some (BytesStr.fromStr p.as_str)) ∧
    (∀ (x : PseudoHeadersOverride) (s : List Nat),
      (x.set_authority_str s).authority = some (BytesStr.fromStr s)) ∧
    (∀ (x : PseudoHeadersOverride) (s : List Nat),
      (x.set_path s).path = some (BytesStr.fromStr s)) ∧
    (∀ (x : PseudoHeadersOverride) (s : List Nat),
      (∀ c ∈ s, ValidScalar c) →
      (x.set_authority_str s).authority.map BytesStr.as_str = some s ∧
      (x.set_path s).path.map BytesStr.as_str = some s) := by
  refine ⟨fun x a => rfl, fun x p => rfl, fun x s => rfl, fun x s => rfl,
    fun x s hs => ⟨?_, ?_⟩⟩
  · simp [PseudoHeadersOverride.set_authority_str, BytesStr.as_str_fromStr s hs]
  · simp [PseudoHeadersOverride.set_path, BytesStr.as_str_fromStr s hs]

/-- Witness for C8 at a concrete valid raw string. -/
theorem claim_C8_witness :
    (∀ c ∈ [47, 97], ValidScalar c) ∧
    (PseudoHeadersOverride.new.set_authority_str [47, 97]).authority.map
      BytesStr.as_str = some [47, 97] ∧
    (PseudoHeadersOverride.new.set_path [47, 97]).path.map
      BytesStr.as_str = some [47, 97] :=
  ⟨by decide, claim_C8.2.2.2.2 PseudoHeadersOverride.new [47, 97] (by decide)⟩

/-- C9: every setter is last-write-wins — calling the same setter twice
keeps only the second value (and, by C5, leaves the other fields as they
were). -/
theorem claim_C9 :
    (∀ (x : PseudoHeadersOverride) (v1 v2 : Method),
      (x.set_method v1).set_method v2 = x.set_method v2) ∧
    (∀ (x : PseudoHeadersOverride) (v1 v2 : Scheme),
      (x.set_scheme v1).set_scheme v2 = x.set_scheme v2) ∧
    (∀ (x : PseudoHeadersOverride) (v1 v2 : Authority),
      (x.set_authority v1).set_authority v2 = x.set_authority v2) ∧
    (∀ (x : PseudoHeadersOverride) (v1 v2 : List Nat),
      (x.set_authority_str v1).set_authority_str v2 =
        x.set_authority_str v2) ∧
    (∀ (x : PseudoHeadersOverride) (v1 v2 : PathAndQuery),
      (x.set_path_and_query v1).set_path_and_query v2 =
        x.set_path_and_query v2) ∧
    (∀ (x : PseudoHeadersOverride) (v1 v2 : List Nat),
      (x.set_path v1).set_path v2 = x.set_path v2) ∧
    (∀ (x : PseudoHeadersOverride) (v1 v2 : Protocol),
      (x.set_protocol v1).set_protocol v2 = x.set_protocol v2) :=
  ⟨fun x v1 v2 => rfl, fun x v1 v2 => rfl, fun x v1 v2 => rfl,
   fun x v1 v2 => rfl, fun x v1 v2 => rfl, fun x v1 v2 => rfl,
   fun x v1 v2 => rfl⟩

/-- C10: no constructor of `Protocol` enforces non-emptiness: all three
construction paths accept the empty string / empty byte buffer, and the
result has an empty string view and an empty byte view. -/
theorem claim_C10 :
    Protocol.from_static [] = Protocol.fromStr [] ∧
    (Protocol.from_static []).as_str = [] ∧
    (Protocol.from_static []).as_ref = [] ∧
    (Protocol.fromStr []).as_str = [] ∧
    (Protocol.fromStr []).as_ref = [] ∧
    Protocol.try_from [] = .ok (Protocol.from_static []) ∧
    (∃ p, Protocol.try_from [] = .ok p ∧ p.as_str = [] ∧ p.as_ref = []) :=
  ⟨rfl, rfl, rfl, rfl, rfl, rfl, ⟨⟨⟨[]⟩⟩, rfl, rfl, rfl⟩⟩

end H2
